/-
Verification of the las-dispersion-scan retrieval pipeline
(`las_dispersion_scan/dscan.py`) against its specification.

The numeric code is shallowly embedded: python/numpy floats are idealised
as real numbers (`ℝ`) where trigonometry or π is involved, and as exact
rationals (`ℚ`) for the purely arithmetic array pipeline, so that
concrete inputs can be evaluated.  numpy arrays become `List`s; in-place
numpy operations on views become explicit functions returning the
caller's array after the call.
-/
import Mathlib

namespace DScan

/-! ## Material (dscan.py lines 39-52)

`Material` is a four-variant enumeration; `get_coefficient` converts a
wedge angle (degrees) into the stage-position-to-insertion conversion
factor.  Source:

    def get_coefficient(self, wedge_angle: float) -> float:
        if self in {Material.gratinga, Material.gratingc}:
            return 4.0
        if self in {Material.bk7, Material.fs}:
            return np.tan(wedge_angle * np.pi / 180) * np.cos(wedge_angle * np.pi / 360)
        raise ValueError("Unsupported material type")

The `raise` branch is unreachable for the enumeration's four members, so
the Lean embedding is total over the inductive type.
-/

inductive Material
  | fs
  | bk7
  | gratinga
  | gratingc
deriving DecidableEq

noncomputable def Material.get_coefficient (m : Material) (wedge_angle : ℝ) : ℝ :=
  match m with
  | .gratinga | .gratingc => 4
  | .bk7 | .fs =>
      Real.tan (wedge_angle * Real.pi / 180) * Real.cos (wedge_angle * Real.pi / 360)

/-! ## Frequency-time grid construction (dscan.py lines 436-442)

    freq_bandwidth = freq_bandwidth_wl * 1e-9 * 2 * np.pi * 2.998e8 / wavelength_raw_center**2
    fund_frequency_step = np.round(freq_bandwidth / (grid_points - 1), 0)
    ft = pypret.FourierTransform(grid_points, dw=fund_frequency_step, w0=-freq_bandwidth / 2)

Floats are idealised as reals; the numeric literals 1e-9 and 2.998e8 are
exact powers of ten times integers and are transcribed exactly.
`np.round(x, 0)` rounds half to even (numpy semantics), modelled by
`np_round` below.
-/

open Classical in
/-- numpy's `np.round(x, 0)`: round to the nearest integer, halves to the
nearest even integer. -/
noncomputable def np_round (x : ℝ) : ℝ :=
  if Int.fract x < 1 / 2 then (⌊x⌋ : ℝ)
  else if 1 / 2 < Int.fract x then (⌊x⌋ : ℝ) + 1
  else if Even ⌊x⌋ then (⌊x⌋ : ℝ) else (⌊x⌋ : ℝ) + 1

/-- dscan.py line 436-438: the angular-frequency bandwidth. -/
noncomputable def run_pypret_freq_bandwidth (freq_bandwidth_wl wavelength_raw_center : ℝ) : ℝ :=
  freq_bandwidth_wl * (1 / 10 ^ 9) * 2 * Real.pi * (2998 * 10 ^ 5) / wavelength_raw_center ^ 2

/-- dscan.py line 439: the frequency step passed to the grid as dw. -/
noncomputable def run_pypret_fund_frequency_step
    (freq_bandwidth_wl wavelength_raw_center : ℝ) (grid_points : ℕ) : ℝ :=
  np_round (run_pypret_freq_bandwidth freq_bandwidth_wl wavelength_raw_center
    / ((grid_points : ℝ) - 1))

/-- dscan.py line 441: the grid offset passed to the grid as w0. -/
noncomputable def run_pypret_w0 (freq_bandwidth_wl wavelength_raw_center : ℝ) : ℝ :=
  -(run_pypret_freq_bandwidth freq_bandwidth_wl wavelength_raw_center) / 2

/-- The spec's formula (section 4.1): angular-frequency bandwidth
Δω = Δλ·2π·c / λ_center², stated from the spec's words for comparison
with the source's computation. -/
noncomputable def spec_angular_bandwidth (bandwidth_wavelength c center_wavelength : ℝ) : ℝ :=
  bandwidth_wavelength * 2 * Real.pi * c / center_wavelength ^ 2

/-! ## Fundamental-spectrum DC-offset subtraction (dscan.py lines 417-420)

    fund_wavelength = fund_data[:, 0] * 1e-9      # multiplication: fresh array
    fund_intensities = fund_data[:, 1]            # basic slice: a VIEW of fund_data
    fund_intensities -= np.average(fund_intensities[:7])   # in-place on the view

The in-place subtraction writes through the view into the caller's
`fund_data`.  Every later operation on the fundamental rebinds to fresh
arrays (boolean-mask indexing at line 427-428, polynomial fit results at
lines 450-453, the scaled copy at line 562), so the function's net effect
on the caller's array is exactly the column-1 subtraction modelled here.
-/

/-- numpy's `np.average` of a 1-D array: arithmetic mean. -/
def np_average (xs : List ℚ) : ℚ := xs.sum / xs.length

/-- The caller's `fund_data` after `run_pypret` has executed lines 417-420:
column 1 of every row has the mean of the first 7 column-1 samples
subtracted; all other entries are untouched. -/
def fund_data_after (fund_data : List (List ℚ)) : List (List ℚ) :=
  let offset := np_average ((fund_data.map (fun r => r.getD 1 0)).take 7)
  fund_data.map (fun r => r.set 1 (r.getD 1 0 - offset))

/-! ## Scan-trace loading and preprocessing (dscan.py lines 482-503)

    scan_positions = scan_data[0, 1:] * 1e-3
    scan_wavelength = scan_data[1:, 0] * 1e-9
    scan_intensities = scan_data[1:, 1:].transpose()     # a VIEW of scan_data
    scan_intensities /= np.amax(scan_intensities)        # in-place: mutates scan_data
    scan_intensities = gaussian_filter(scan_intensities, sigma=blur_sigma)  # fresh array
    scan_wavelength_idx = (scan_wavelength > lo) & (scan_wavelength < hi)
    scan_wavelength = scan_wavelength[scan_wavelength_idx]
    scan_intensities = scan_intensities[:, scan_wavelength_idx]   # fresh array (mask copy)
    ... per-row linear background subtraction on the fresh cropped array ...

Rows of `scan_intensities` are indexed by scan position, columns by
wavelength.  `gaussian_filter` with sigma = 0 returns the data unchanged,
which is the configuration the pipeline functions below transcribe.
-/

/-- numpy's `np.amax` over a 2-D array: the greatest entry.  (Transposition
does not change the set of entries, so the row-major model is used.) -/
def np_amax (rows : List (List ℚ)) : ℚ :=
  match rows.join with
  | [] => 0
  | x :: xs => xs.foldl max x

/-- dscan.py line 486: scale all intensities by the global maximum. -/
def normalize_step (rows : List (List ℚ)) : List (List ℚ) :=
  let m := np_amax rows
  rows.map (fun r => r.map (fun x => x / m))

/-- dscan.py lines 490-494, intensity part: keep only the columns whose
wavelength lies strictly between the bounds. -/
def crop_cols (wl : List ℚ) (lo hi : ℚ) (rows : List (List ℚ)) : List (List ℚ) :=
  rows.map (fun r => (r.zip wl).filterMap
    (fun p => if lo < p.2 ∧ p.2 < hi then some p.1 else none))

/-- dscan.py lines 490-493, wavelength part of the crop. -/
def crop_wavelength (wl : List ℚ) (lo hi : ℚ) : List ℚ :=
  wl.filter (fun w => decide (lo < w) && decide (w < hi))

/-- The scan-trace transformations of dscan.py lines 486-494 in source
order (with `blur_sigma = 0`, where the Gaussian blur is the identity):
first the scale to unit global peak (line 486), then the wavelength crop
(lines 490-494). -/
def scan_trace_pipeline (scan_wavelength : List ℚ) (scan_intensities : List (List ℚ))
    (lo hi : ℚ) : List ℚ × List (List ℚ) :=
  let normalized := normalize_step scan_intensities
  (crop_wavelength scan_wavelength lo hi, crop_cols scan_wavelength lo hi normalized)

/-- The order asserted by the spec's numbered pipeline: wavelength
cropping (step 2) applied to the scan trace before the scale to unit
global peak (step 4).  Stated from the spec's words for comparison with
the source order. -/
def claim_order_pipeline (scan_wavelength : List ℚ) (scan_intensities : List (List ℚ))
    (lo hi : ℚ) : List ℚ × List (List ℚ) :=
  (crop_wavelength scan_wavelength lo hi,
   normalize_step (crop_cols scan_wavelength lo hi scan_intensities))

/-- The caller's `scan_data` after `run_pypret` has executed lines
482-503.  Only line 486 writes through a view into the caller's array:
it divides the intensity block `scan_data[1:, 1:]` by its greatest entry.
The blur, the boolean-mask crop and the per-row background subtraction
all rebind to fresh arrays, so they leave the caller's array alone. -/
def scan_data_after (scan_data : List (List ℚ)) : List (List ℚ) :=
  match scan_data with
  | [] => []
  | hdr :: rest =>
      let m := np_amax (rest.map (fun r => r.drop 1))
      hdr :: rest.map (fun r =>
        match r with
        | [] => []
        | w :: xs => w :: xs.map (fun x => x / m))

/-- Entry (i, j) of a rational matrix, defaulting to 0 out of range. -/
def entry (d : List (List ℚ)) (i j : ℕ) : ℚ := (d.getD i []).getD j 0

/-! ## Scan-parameter axis conversion (dscan.py lines 505-510)

    method_coef = material.get_coefficient(wedge_angle)
    trace_raw = pypret.MeshData(
        scan_intensities,
        method_coef * (scan_positions - min(scan_positions)),
        ...)

The parameter axis handed to the mesh is the converted one modelled by
`convert_axis`.  Reals are used because the coefficient involves
trigonometry.
-/

/-- Minimum entry of a 1-D array (`min(...)` / `np.min` on a nonempty
array; the empty case never occurs in the source and defaults to 0). -/
noncomputable def np_min_real : List ℝ → ℝ
  | [] => 0
  | x :: xs => xs.foldl min x

/-- dscan.py lines 506-510: the converted scan-parameter axis. -/
noncomputable def convert_axis (material : Material) (wedge_angle : ℝ)
    (scan_positions : List ℝ) : List ℝ :=
  let method_coef := material.get_coefficient wedge_angle
  scan_positions.map (fun p => method_coef * (p - np_min_real scan_positions))

/-! ## Temporal-profile alignment in the compression search
(dscan.py lines 569-579)

    result_parameter_mid_idx = np.floor(len(pulse.field) / 2) + 1
    ...
    profile = np.power(np.abs(pulse.field), 2)[:]
    profile_max_idx = np.argmax(profile)
    result_profile[:, i] = np.roll(
        profile, -round(profile_max_idx - result_parameter_mid_idx))

The profile is an arbitrary nonnegative 1-D array; the roll is modelled
on arbitrary rational lists.  python's `round` is exact here because its
argument is an integer-valued float difference, so the shift is exactly
`-(profile_max_idx - result_parameter_mid_idx)`.
-/

/-- numpy's `np.argmax`: the first index holding the greatest entry. -/
def np_argmax : List ℚ → ℕ
  | [] => 0
  | [_] => 0
  | x :: y :: xs =>
      let j := np_argmax (y :: xs)
      if x < (y :: xs).getD j 0 then j + 1 else 0

/-- dscan.py line 570: `np.floor(len(pulse.field) / 2) + 1`, an integer
value for an integer-length array. -/
def result_parameter_mid_idx (n : ℕ) : ℕ := n / 2 + 1

/-- numpy's `np.roll`: `np.roll(a, s)[i] = a[(i - s) mod len(a)]`,
realised as a left rotation by `(-s) mod len(a)`. -/
def np_roll (xs : List ℚ) (s : ℤ) : List ℚ :=
  xs.rotate (((-s) % (xs.length : ℤ)).toNat)

/-- dscan.py lines 576-579: roll the intensity profile so its peak moves
to `result_parameter_mid_idx`. -/
def roll_to_center (profile : List ℚ) : List ℚ :=
  np_roll profile
    (-((np_argmax profile : ℤ) - (result_parameter_mid_idx profile.length : ℤ)))

/-! ## Compression-point selection (dscan.py lines 569-585 and 629-636)

    for i, p in enumerate(result_parameter):
        ...
        try:
            fwhm[i] = pulse.fwhm(dt=pulse.dt / 100)
        except Exception:
            fwhm[i] = np.nan
    result_optimum_idx = np.nanargmin(fwhm)
    ...
    if plot_position is None:
        pypret_plot_parameter = result_parameter[result_optimum_idx]
    else:
        pypret_plot_parameter = result_parameter[
            (np.nanargmin(np.abs(scan_positions - plot_position * 1e-3)))]

`pulse.fwhm` is library code that may raise on a non-peaked profile; it
is abstracted as an Option-valued per-slice duration, `none` standing for
the NaN recorded by the except branch.  `np.nanargmin` returns the first
index attaining the minimum over the non-NaN entries and fails when
every entry is NaN; `none` models that failure.
-/

/-- Least defined (non-NaN) value of an Option-array; `none` when all
entries are NaN. -/
def nanMin : List (Option ℚ) → Option ℚ
  | [] => none
  | none :: rest => nanMin rest
  | some v :: rest =>
      match nanMin rest with
      | none => some v
      | some w => some (min v w)

/-- First index of an array holding the given defined value. -/
def firstIdxOf : List (Option ℚ) → ℚ → Option ℕ
  | [], _ => none
  | x :: xs, v => if x = some v then some 0 else (firstIdxOf xs v).map (fun i => i + 1)

/-- numpy's `np.nanargmin`: the first index attaining the least non-NaN
value. -/
def nanargmin (xs : List (Option ℚ)) : Option ℕ :=
  match nanMin xs with
  | none => none
  | some v => firstIdxOf xs v

/-- dscan.py lines 571-583: the per-slice FWHM array, with NaN (`none`)
at every slice where `pulse.fwhm` raises. -/
def fwhm_list (fwhmOf : ℕ → Option ℚ) (n : ℕ) : List (Option ℚ) :=
  (List.range n).map fwhmOf

/-- dscan.py lines 584 and 629-636: the scan index selected for the
final plot — the minimum-FWHM index when no plot position is supplied,
otherwise the index whose scan position (in m) is nearest
plot_position · 1e-3. -/
def select_plot_index (fwhmOf : ℕ → Option ℚ) (n : ℕ) (scan_positions : List ℚ)
    (plot_position : Option ℚ) : Option ℕ :=
  match plot_position with
  | none => nanargmin (fwhm_list fwhmOf n)
  | some pp => nanargmin (scan_positions.map (fun x => some |x - pp * (1 / 1000)|))

/-! ## Error handling modelled from the spec

The repository's preprocessing helpers (`las_dispersion_scan.utils.preprocess`,
`preprocess2`, `pulse_from_spectrum`) and the grid/retriever objects
(`pypret.FourierTransform`, `pypret.Retriever`) are invoked from
`run_pypret` (dscan.py lines 440 and 533-556) but their definitions are
not available under src/.  The two definitions below are therefore
modelled from the spec (sections 4.1, 4.6, 7, 8) and the corresponding
claims are settled against them.
-/

/-- The part of the spec's error taxonomy (section 7) these claims use. -/
inductive PipelineError
  | dataError
  | configurationError
deriving DecidableEq

/-- A measured trace has degenerate energy when every sample is zero. -/
def trace_all_zero (trace : List (List ℚ)) : Bool :=
  trace.all (fun row => row.all (fun x => x = 0))

/-- Modelled from the spec: the retrieval entry point (spec sections 4.6
and 7).  The concrete degenerate-energy check lives in the
preprocessing/retrieval code called at dscan.py lines 533-556
(las_dispersion_scan.utils and pypret), which is not in src/.  Per the
spec, an all-zero measured trace raises DataError before any optimizer
iteration is attempted; otherwise the optimizer runs `max_iter`
iterations of its update step and returns the error history. -/
def retrieve (trace : List (List ℚ)) (max_iter : ℕ) (step : ℚ → ℚ) (err0 : ℚ) :
    Except PipelineError (List ℚ) :=
  if trace_all_zero trace then Except.error PipelineError.dataError
  else Except.ok ((List.range max_iter).map (fun k => step^[k + 1] err0))

/-- numpy-style round-half-to-even on exact rationals (used by the
spec-modelled grid constructor for `dw = round(Δω/(N−1))`). -/
def round_rat_half_even (x : ℚ) : ℚ :=
  if Int.fract x < 1 / 2 then (⌊x⌋ : ℚ)
  else if 1 / 2 < Int.fract x then (⌊x⌋ : ℚ) + 1
  else if Even ⌊x⌋ then (⌊x⌋ : ℚ) else (⌊x⌋ : ℚ) + 1

/-- Modelled from the spec: the SpectralGrid constructor (spec section
4.1).  In the source the grid is built by `pypret.FourierTransform`
(dscan.py line 440), whose validation code is not in src/; the spec
states that construction fails if N < 2 or the bandwidth is not
strictly positive, and otherwise derives `dw = round(Δω/(N−1))` and
`w0 = −Δω/2`. -/
def spectral_grid (n : ℕ) (bandwidth : ℚ) : Except PipelineError (ℚ × ℚ) :=
  if n < 2 ∨ bandwidth ≤ 0 then Except.error PipelineError.configurationError
  else Except.ok (round_rat_half_even (bandwidth / ((n : ℚ) - 1)), -bandwidth / 2)

end DScan

/-- C2: for both grating material variants `get_coefficient` returns 4.0 at
every wedge angle; for both glass variants (FS, BK7) it returns
tan(angle·π/180)·cos((angle·π/180)/2), i.e. tan of the angle in radians
times cos of half the angle in radians; in particular BK7 at angle 0
yields 0.  (Any other material tag is impossible: the enumeration has
exactly these four members, so the source's ValueError branch is
unreachable.) -/
theorem C2_material_coefficient :
    (∀ a : ℝ, DScan.Material.get_coefficient DScan.Material.gratinga a = 4) ∧
    (∀ a : ℝ, DScan.Material.get_coefficient DScan.Material.gratingc a = 4) ∧
    (∀ a : ℝ, DScan.Material.get_coefficient DScan.Material.fs a =
      Real.tan (a * Real.pi / 180) * Real.cos ((a * Real.pi / 180) / 2)) ∧
    (∀ a : ℝ, DScan.Material.get_coefficient DScan.Material.bk7 a =
      Real.tan (a * Real.pi / 180) * Real.cos ((a * Real.pi / 180) / 2)) ∧
    DScan.Material.get_coefficient DScan.Material.bk7 0 = 0 := by
  refine ⟨fun a => rfl, fun a => rfl, fun a => ?_, fun a => ?_, ?_⟩
  · show Real.tan (a * Real.pi / 180) * Real.cos (a * Real.pi / 360) = _
    rw [show (a * Real.pi / 180) / 2 = a * Real.pi / 360 by ring]
  · show Real.tan (a * Real.pi / 180) * Real.cos (a * Real.pi / 360) = _
    rw [show (a * Real.pi / 180) / 2 = a * Real.pi / 360 by ring]
  · show Real.tan (0 * Real.pi / 180) * Real.cos (0 * Real.pi / 360) = 0
    rw [show (0 : ℝ) * Real.pi / 180 = 0 by ring, Real.tan_zero, zero_mul]

/-- C3: grid construction computes the angular-frequency bandwidth as
bandwidth_wavelength · 2π · c / center_wavelength² (with the bandwidth
given in nm, hence the 1e-9 conversion, and c = 2.998e8), the frequency
step as round(bandwidth / (N − 1)) for N grid points, and the grid offset
as w0 = −bandwidth/2. -/
theorem C3_grid_construction :
    ∀ (bw_wl center : ℝ) (grid_points : ℕ),
      DScan.run_pypret_freq_bandwidth bw_wl center
          = DScan.spec_angular_bandwidth (bw_wl * (1 / 10 ^ 9)) (2998 * 10 ^ 5) center ∧
      DScan.run_pypret_fund_frequency_step bw_wl center grid_points
          = DScan.np_round
              (DScan.run_pypret_freq_bandwidth bw_wl center / ((grid_points : ℝ) - 1)) ∧
      DScan.run_pypret_w0 bw_wl center
          = -(DScan.run_pypret_freq_bandwidth bw_wl center) / 2 := by
  intro bw c n
  refine ⟨?_, rfl, rfl⟩
  unfold DScan.run_pypret_freq_bandwidth DScan.spec_angular_bandwidth
  ring

/-- C10: `run_pypret` mutates its `fund_data` argument in place: the DC
offset — the mean of the first 7 intensity (column-1) samples — is
subtracted through a view of the intensity column, so every row's
column-1 entry is shifted by that mean, and whenever the mean is nonzero
the caller's array no longer holds the raw intensities. -/
theorem C10_fund_data_mutation :
    ∀ (d : List (List ℚ)),
      (∀ i : ℕ, (DScan.fund_data_after d).get? i
          = (d.get? i).map (fun r =>
              r.set 1 (r.getD 1 0
                - DScan.np_average ((d.map (fun r => r.getD 1 0)).take 7)))) ∧
      (DScan.np_average ((d.map (fun r => r.getD 1 0)).take 7) ≠ 0 →
        ∀ (i : ℕ) (row : List ℚ), d.get? i = some row → 2 ≤ row.length →
          DScan.fund_data_after d ≠ d) := by
  intro d
  constructor
  · intro i
    simp [DScan.fund_data_after, List.get?_map]
  · intro hoff i row hrow hlen heq
    match row, hlen with
    | a :: b :: rest, _ =>
      have h1 : (DScan.fund_data_after d).get? i = some (a :: b :: rest) := by
        rw [heq, hrow]
      have h2 : (DScan.fund_data_after d).get? i
          = some ((a :: b :: rest).set 1 ((a :: b :: rest).getD 1 0
              - DScan.np_average ((d.map (fun r => r.getD 1 0)).take 7))) := by
        simp only [DScan.fund_data_after, List.get?_map, hrow, Option.map_some']
      rw [h1] at h2
      have h3 : b = b - DScan.np_average ((d.map (fun r => r.getD 1 0)).take 7) := by
        have := Option.some.inj h2
        simpa using congrArg (fun l => l.getD 1 0) this
      apply hoff
      linarith [h3]

lemma getD_map_div (m : ℚ) : ∀ (xs : List ℚ) (j : ℕ),
    (xs.map (fun x => x / m)).getD j 0 = xs.getD j 0 / m
  | [], _ => by simp
  | _ :: _, 0 => rfl
  | _ :: xs, j + 1 => getD_map_div m xs j

lemma getD_map_rows (f : List ℚ → List ℚ) (hf : f [] = []) :
    ∀ (rs : List (List ℚ)) (i : ℕ), (rs.map f).getD i [] = f (rs.getD i [])
  | [], _ => by simp [hf]
  | _ :: _, 0 => rfl
  | _ :: rs, i + 1 => getD_map_rows f hf rs i

lemma crop_cols_map_div (wl : List ℚ) (lo hi m : ℚ) (rows : List (List ℚ)) :
    DScan.crop_cols wl lo hi (rows.map (fun r => r.map (fun x => x / m)))
      = (DScan.crop_cols wl lo hi rows).map (fun r => r.map (fun x => x / m)) := by
  unfold DScan.crop_cols
  simp only [List.map_map]
  congr 1
  funext r
  show (((r.map (fun x => x / m)).zip wl).filterMap
      (fun p => if lo < p.2 ∧ p.2 < hi then some p.1 else none))
    = ((r.zip wl).filterMap
      (fun p => if lo < p.2 ∧ p.2 < hi then some p.1 else none)).map (fun x => x / m)
  rw [List.zip_map_left, List.filterMap_map, List.map_filterMap]
  congr 1
  funext p
  rcases p with ⟨a, b⟩
  by_cases h : lo < b ∧ b < hi <;> simp [h]

/-- C9 counterexample: preprocessing DOES change the intensity block of
the caller's raw scan array.  For scan_data = [[0, 1], [5, 2]] (header
row [0, 1], wavelength column [5], intensity block [[2]]), the intensity
block of the caller's array after the call is [[1]], not [[2]]. -/
theorem C9_counterexample :
    ((DScan.scan_data_after [[0, 1], [5, 2]]).drop 1).map (fun r => r.drop 1)
      ≠ (([[(0 : ℚ), 1], [5, 2]] : List (List ℚ)).drop 1).map (fun r => r.drop 1) := by
  norm_num [DScan.scan_data_after, DScan.np_amax]

/-- C9 amended: preprocessing mutates the raw scan trace in place.  The
unit-peak normalization (line 486) divides the intensity block of the
caller's array by its global maximum through a numpy view; the header
row (positions) and the first column (wavelengths) are unchanged, and the
remaining steps (blur, crop, per-row background subtraction) operate on
fresh arrays and leave the caller's array alone. -/
theorem C9_amended_in_place_normalization :
    ∀ (d : List (List ℚ)) (i j : ℕ),
      DScan.entry (DScan.scan_data_after d) 0 j = DScan.entry d 0 j ∧
      DScan.entry (DScan.scan_data_after d) (i + 1) 0 = DScan.entry d (i + 1) 0 ∧
      DScan.entry (DScan.scan_data_after d) (i + 1) (j + 1)
        = DScan.entry d (i + 1) (j + 1)
            / DScan.np_amax ((d.drop 1).map (fun r => r.drop 1)) := by
  intro d i j
  match d with
  | [] => simp [DScan.scan_data_after, DScan.entry, zero_div]
  | hdr :: rest =>
    refine ⟨by simp [DScan.entry, DScan.scan_data_after], ?_, ?_⟩
    · have hrow := getD_map_rows
        (fun r => match r with
          | [] => []
          | w :: xs => w :: xs.map (fun x =>
              x / DScan.np_amax (rest.map (fun r => r.drop 1)))) rfl rest i
      simp only [DScan.entry, DScan.scan_data_after, List.getD_cons_succ]
      rw [hrow]
      rcases rest.getD i [] with _ | ⟨w, xs⟩
      · simp
      · simp
    · have hrow := getD_map_rows
        (fun r => match r with
          | [] => []
          | w :: xs => w :: xs.map (fun x =>
              x / DScan.np_amax (rest.map (fun r => r.drop 1)))) rfl rest i
      simp only [DScan.entry, DScan.scan_data_after, List.getD_cons_succ, List.drop_succ_cons,
        List.drop_zero]
      rw [hrow]
      rcases rest.getD i [] with _ | ⟨w, xs⟩
      · simp [zero_div]
      · simpa using getD_map_div (DScan.np_amax (rest.map (fun r => r.drop 1))) xs j

/-- C7 counterexample: the scan trace is NOT cropped before it is scaled
to unit global peak.  With wavelengths [1, 3], a single scan row [4, 2]
and crop window (2, 4), the source order (scale at line 486, then crop at
lines 490-494) yields the intensity block [[1/2]], while the claimed
order (crop, then scale) would yield [[1]]. -/
theorem C7_counterexample :
    (DScan.scan_trace_pipeline [1, 3] [[4, 2]] 2 4).2
      ≠ (DScan.claim_order_pipeline [1, 3] [[4, 2]] 2 4).2 := by
  norm_num [DScan.scan_trace_pipeline, DScan.claim_order_pipeline, DScan.normalize_step,
    DScan.crop_cols, DScan.np_amax, List.zip, List.zipWith, List.filterMap]

/-- C7 amended: in the trace-preprocessing pipeline the scan trace is
scaled to unit global peak (line 486) BEFORE its wavelength crop (lines
490-494), the reverse of the claimed order; whenever the trace's global
maximum survives the crop, the two orders give the same result. -/
theorem C7_amended_scale_before_crop :
    (∀ (wl : List ℚ) (rows : List (List ℚ)) (lo hi : ℚ),
        DScan.scan_trace_pipeline wl rows lo hi
          = (DScan.crop_wavelength wl lo hi,
             DScan.crop_cols wl lo hi (DScan.normalize_step rows))) ∧
    (∀ (wl : List ℚ) (rows : List (List ℚ)) (lo hi : ℚ),
        DScan.np_amax (DScan.crop_cols wl lo hi rows) = DScan.np_amax rows →
        DScan.scan_trace_pipeline wl rows lo hi
          = DScan.claim_order_pipeline wl rows lo hi) := by
  refine ⟨fun _ _ _ _ => rfl, ?_⟩
  intro wl rows lo hi hmax
  unfold DScan.scan_trace_pipeline DScan.claim_order_pipeline
  refine congrArg (Prod.mk _) ?_
  show DScan.crop_cols wl lo hi (DScan.normalize_step rows)
     = DScan.normalize_step (DScan.crop_cols wl lo hi rows)
  unfold DScan.normalize_step
  rw [crop_cols_map_div, hmax]

/-- Witness for C7 at a concrete input: with wavelengths [1, 3], row
[2, 4] and window (2, 4) the global maximum 4 sits at wavelength 3 and
survives the crop, so the two orders agree there. -/
theorem C7_witness :
    DScan.np_amax (DScan.crop_cols [1, 3] 2 4 [[(2 : ℚ), 4]]) = DScan.np_amax [[(2 : ℚ), 4]] ∧
    DScan.scan_trace_pipeline [1, 3] [[(2 : ℚ), 4]] 2 4
      = DScan.claim_order_pipeline [1, 3] [[(2 : ℚ), 4]] 2 4 := by
  have h : DScan.np_amax (DScan.crop_cols [1, 3] 2 4 [[(2 : ℚ), 4]])
      = DScan.np_amax [[(2 : ℚ), 4]] := by
    norm_num [DScan.np_amax, DScan.crop_cols, List.zip, List.zipWith, List.filterMap]
  exact ⟨h, C7_amended_scale_before_crop.2 [1, 3] [[(2 : ℚ), 4]] 2 4 h⟩

/-- Witness for C10 at a concrete input: the single row [0, 2] has
first-7 column-1 mean 2 ≠ 0, and the caller's array is changed. -/
theorem C10_witness :
    DScan.np_average ((([[(0 : ℚ), 2]].map (fun r => r.getD 1 0)).take 7)) ≠ 0 ∧
    DScan.fund_data_after [[(0 : ℚ), 2]] ≠ [[(0 : ℚ), 2]] := by
  have hoff : DScan.np_average ((([[(0 : ℚ), 2]].map (fun r => r.getD 1 0)).take 7)) ≠ 0 := by
    norm_num [DScan.np_average]
  exact ⟨hoff, (C10_fund_data_mutation [[(0 : ℚ), 2]]).2 hoff 0 [0, 2] rfl (by norm_num)⟩

lemma foldl_min_mem : ∀ (xs : List ℝ) (a : ℝ), xs.foldl min a ∈ a :: xs
  | [], a => List.mem_singleton.mpr rfl
  | x :: xs, a => by
      show xs.foldl min (min a x) ∈ a :: x :: xs
      have h := foldl_min_mem xs (min a x)
      rcases List.mem_cons.mp h with h1 | h1
      · rw [h1]
        rcases le_total a x with hax | hax
        · rw [min_eq_left hax]
          exact List.mem_cons_self _ _
        · rw [min_eq_right hax]
          exact List.mem_cons.mpr (Or.inr (List.mem_cons_self _ _))
      · exact List.mem_cons.mpr (Or.inr (List.mem_cons.mpr (Or.inr h1)))

lemma foldl_min_le : ∀ (xs : List ℝ) (a b : ℝ), b ∈ a :: xs → xs.foldl min a ≤ b
  | [], a, b, h => by
      rcases List.mem_cons.mp h with rfl | h1
      · exact le_refl _
      · exact absurd h1 (List.not_mem_nil b)
  | x :: xs, a, b, h => by
      show xs.foldl min (min a x) ≤ b
      have hinit : xs.foldl min (min a x) ≤ min a x :=
        foldl_min_le xs (min a x) (min a x) (List.mem_cons_self _ _)
      rcases List.mem_cons.mp h with rfl | h1
      · exact le_trans hinit (min_le_left _ _)
      · rcases List.mem_cons.mp h1 with rfl | h2
        · exact le_trans hinit (min_le_right _ _)
        · exact foldl_min_le xs (min a x) b (List.mem_cons.mpr (Or.inr h2))

lemma np_min_real_mem : ∀ (xs : List ℝ), xs ≠ [] → DScan.np_min_real xs ∈ xs
  | [], h => absurd rfl h
  | x :: xs, _ => foldl_min_mem xs x

lemma np_min_real_le : ∀ (xs : List ℝ) (b : ℝ), b ∈ xs → DScan.np_min_real xs ≤ b
  | [], b, h => absurd h (List.not_mem_nil b)
  | x :: xs, b, h => foldl_min_le xs x b h

/-- C6 counterexample: for the glass material BK7 at wedge angle −45°,
the conversion coefficient tan(−45°·π/180)·cos(−45°·π/360) = −cos(π/8)
is negative, so converting the scan positions [0, 1] yields an axis
whose minimum is negative, not zero. -/
theorem C6_counterexample :
    DScan.np_min_real (DScan.convert_axis DScan.Material.bk7 (-45) [0, 1]) < 0 := by
  have hpi := Real.pi_pos
  have hcos : 0 < Real.cos (Real.pi / 8) := by
    apply Real.cos_pos_of_mem_Ioo
    constructor
    · linarith
    · linarith
  have hc : DScan.Material.get_coefficient DScan.Material.bk7 (-45) = -Real.cos (Real.pi / 8) := by
    show Real.tan ((-45) * Real.pi / 180) * Real.cos ((-45) * Real.pi / 360) = _
    rw [show ((-45) : ℝ) * Real.pi / 180 = -(Real.pi / 4) by ring,
      show ((-45) : ℝ) * Real.pi / 360 = -(Real.pi / 8) by ring,
      Real.tan_neg, Real.tan_pi_div_four, Real.cos_neg]
    ring
  have hc0 : DScan.Material.get_coefficient DScan.Material.bk7 (-45) < 0 := by
    rw [hc]; linarith
  have hmin01 : DScan.np_min_real [(0 : ℝ), 1] = 0 := by
    show min (0 : ℝ) 1 = 0
    exact min_eq_left (by norm_num)
  have haxis : DScan.convert_axis DScan.Material.bk7 (-45) [0, 1]
      = [0, DScan.Material.get_coefficient DScan.Material.bk7 (-45)] := by
    unfold DScan.convert_axis
    rw [hmin01]
    simp
  rw [haxis]
  show min (0 : ℝ) (DScan.Material.get_coefficient DScan.Material.bk7 (-45)) < 0
  rw [min_eq_right hc0.le]
  exact hc0

/-- C6 amended: preprocessing converts the scan-parameter axis to
coefficient × (position − min position); the minimum element of the
converted axis equals zero whenever the material coefficient is
nonnegative (which holds for the grating materials at every angle and
for the glass materials at wedge angles whose coefficient is
nonnegative, e.g. in [0°, 90°)). -/
theorem C6_amended_axis_conversion :
    ∀ (m : DScan.Material) (a : ℝ) (ps : List ℝ),
      ps ≠ [] → 0 ≤ m.get_coefficient a →
      DScan.convert_axis m a ps
          = ps.map (fun p => m.get_coefficient a * (p - DScan.np_min_real ps)) ∧
      DScan.np_min_real (DScan.convert_axis m a ps) = 0 := by
  intro m a ps hne hc
  refine ⟨rfl, ?_⟩
  have hmem : DScan.np_min_real ps ∈ ps := np_min_real_mem ps hne
  have hform : DScan.convert_axis m a ps
      = ps.map (fun p => m.get_coefficient a * (p - DScan.np_min_real ps)) := rfl
  have h0mem : (0 : ℝ) ∈ DScan.convert_axis m a ps := by
    rw [hform]
    exact List.mem_map.mpr ⟨DScan.np_min_real ps, hmem, by ring⟩
  have hne2 : DScan.convert_axis m a ps ≠ [] := by
    rw [hform]
    intro h
    exact hne (List.map_eq_nil.mp h)
  have hle : DScan.np_min_real (DScan.convert_axis m a ps) ≤ 0 :=
    np_min_real_le _ _ h0mem
  have hge : 0 ≤ DScan.np_min_real (DScan.convert_axis m a ps) := by
    have hmem2 := np_min_real_mem _ hne2
    rw [hform] at hmem2
    rcases List.mem_map.mp hmem2 with ⟨p, hp, he⟩
    have hmp : DScan.np_min_real ps ≤ p := np_min_real_le ps p hp
    rw [hform, ← he]
    exact mul_nonneg hc (by linarith)
  linarith

lemma np_argmax_lt : ∀ (xs : List ℚ), xs ≠ [] → DScan.np_argmax xs < xs.length
  | [], h => absurd rfl h
  | [_], _ => Nat.zero_lt_one
  | x :: y :: xs, _ => by
      have ih := np_argmax_lt (y :: xs) (by simp)
      simp only [DScan.np_argmax]
      split
      · simp only [List.length_cons] at *
        omega
      · simp

/-- C5 counterexample: the rolled profile does NOT put the peak on the
grid's center sample.  For the length-5 profile [9, 1, 1, 1, 1] the
center sample is index 2 = 5 / 2, but the roll moves the peak (value 9,
at index 0) to index 3 = floor(5/2) + 1, so the entry at the center of
the rolled profile differs from the peak entry. -/
theorem C5_counterexample :
    (DScan.roll_to_center [9, 1, 1, 1, 1]).get? (([9, 1, 1, 1, 1] : List ℚ).length / 2)
      ≠ ([9, 1, 1, 1, 1] : List ℚ).get? (DScan.np_argmax [9, 1, 1, 1, 1]) := by
  have hmx : DScan.np_argmax [9, 1, 1, 1, 1] = 0 := by
    norm_num [DScan.np_argmax, List.getD]
  have hshift : DScan.roll_to_center [9, 1, 1, 1, 1]
      = List.rotate ([9, 1, 1, 1, 1] : List ℚ) 2 := by
    unfold DScan.roll_to_center DScan.np_roll DScan.result_parameter_mid_idx
    rw [hmx]
    congr 1
  rw [hshift, hmx]
  norm_num [List.rotate]

/-- C5 amended: for every scan-parameter index the compression search
circularly rolls the time-domain intensity profile so that the peak
sample lands at index (floor(N/2) + 1) mod N — one sample past the
grid's center sample floor(N/2) — the same index for every parameter
value, since it depends only on the grid length N. -/
theorem C5_amended_roll_alignment :
    ∀ (p : List ℚ), p ≠ [] →
      (DScan.roll_to_center p).length = p.length ∧
      (DScan.roll_to_center p).get? ((p.length / 2 + 1) % p.length)
        = p.get? (DScan.np_argmax p) := by
  intro p hne
  have hn : 0 < p.length := List.length_pos.mpr hne
  have hmx : DScan.np_argmax p < p.length := np_argmax_lt p hne
  set n := p.length with hndef
  set mx := DScan.np_argmax p with hmxdef
  set c := n / 2 + 1 with hcdef
  have hroll : DScan.roll_to_center p
      = p.rotate ((((mx : ℤ) - (c : ℤ)) % (n : ℤ)).toNat) := by
    unfold DScan.roll_to_center DScan.np_roll DScan.result_parameter_mid_idx
    rw [neg_neg, ← hndef, ← hmxdef, ← hcdef]
  set k := (((mx : ℤ) - (c : ℤ)) % (n : ℤ)).toNat with hkdef
  have hi : c % n < n := Nat.mod_lt _ hn
  constructor
  · rw [hroll, List.length_rotate]
  · rw [hroll, List.get?_rotate (lt_of_lt_of_eq hi hndef)]
    congr 1
    have hnz : (n : ℤ) ≠ 0 := Int.natCast_ne_zero.mpr hn.ne'
    have hk : (k : ℤ) = ((mx : ℤ) - (c : ℤ)) % (n : ℤ) :=
      Int.toNat_of_nonneg (Int.emod_nonneg _ hnz)
    have e1 : (((c % n + k) % n : ℕ) : ℤ) = ((c % n + k : ℕ) : ℤ) % (n : ℤ) :=
      Int.natCast_mod _ _
    have e2 : ((c % n + k : ℕ) : ℤ) = ((c : ℤ) % (n : ℤ)) + (k : ℤ) := by
      push_cast
      ring
    have e5 : ((c : ℤ) % (n : ℤ) + ((mx : ℤ) - (c : ℤ)) % (n : ℤ)) % (n : ℤ)
        = ((c : ℤ) + ((mx : ℤ) - (c : ℤ))) % (n : ℤ) := (Int.add_emod _ _ _).symm
    have e7 : (mx : ℤ) % (n : ℤ) = (mx : ℤ) :=
      Int.emod_eq_of_lt (by positivity) (by exact_mod_cast hmx)
    have hcast : (((c % n + k) % n : ℕ) : ℤ) = (mx : ℤ) := by
      rw [e1, e2, hk, e5, show (c : ℤ) + ((mx : ℤ) - (c : ℤ)) = (mx : ℤ) by ring, e7]
    have hgoal : ((c % n + k) % n : ℕ) = mx := by exact_mod_cast hcast
    rw [← hndef]
    exact hgoal

lemma nanMin_none : ∀ (xs : List (Option ℚ)), DScan.nanMin xs = none →
    ∀ (j : ℕ) (w : ℚ), xs.get? j ≠ some (some w)
  | [], _, j, w => by simp
  | none :: _, h, 0, w => by simp
  | none :: rest, h, j + 1, w => nanMin_none rest h j w
  | some u :: rest, h, j, w => by
      unfold DScan.nanMin at h
      cases hr : DScan.nanMin rest <;> rw [hr] at h <;> simp at h

lemma nanMin_le : ∀ (xs : List (Option ℚ)) (v : ℚ), DScan.nanMin xs = some v →
    ∀ (j : ℕ) (w : ℚ), xs.get? j = some (some w) → v ≤ w
  | [], v, h, j, w, hj => by simp at hj
  | none :: _, h, v, 0, w, hj => by simp at hj
  | none :: rest, v, h, j + 1, w, hj => nanMin_le rest v h j w hj
  | some u :: rest, v, h, 0, w, hj => by
      have huw : u = w := Option.some.inj (Option.some.inj hj)
      cases hr : DScan.nanMin rest with
      | none =>
          unfold DScan.nanMin at h
          rw [hr] at h
          rw [← huw, ← Option.some.inj h]
      | some m =>
          unfold DScan.nanMin at h
          rw [hr] at h
          rw [← huw, ← Option.some.inj h]
          exact min_le_left _ _
  | some u :: rest, v, h, j + 1, w, hj => by
      cases hr : DScan.nanMin rest with
      | none => exact absurd hj (nanMin_none rest hr j w)
      | some m =>
          have hm := nanMin_le rest m hr j w hj
          have hv : v = min u m := by
            unfold DScan.nanMin at h
            rw [hr] at h
            exact (Option.some.inj h).symm
          rw [hv]
          exact le_trans (min_le_right _ _) hm

lemma nanMin_mem : ∀ (xs : List (Option ℚ)) (v : ℚ), DScan.nanMin xs = some v → some v ∈ xs
  | [], v, h => by simp [DScan.nanMin] at h
  | none :: rest, v, h => List.mem_cons.mpr (Or.inr (nanMin_mem rest v h))
  | some u :: rest, v, h => by
      cases hr : DScan.nanMin rest with
      | none =>
          unfold DScan.nanMin at h
          rw [hr] at h
          rw [← Option.some.inj h]
          exact List.mem_cons_self _ _
      | some m =>
          have hv : v = min u m := by
            unfold DScan.nanMin at h
            rw [hr] at h
            exact (Option.some.inj h).symm
          rcases le_total u m with hum | hum
          · rw [hv, min_eq_left hum]
            exact List.mem_cons_self _ _
          · rw [hv, min_eq_right hum]
            exact List.mem_cons.mpr (Or.inr (nanMin_mem rest m hr))

lemma firstIdxOf_found : ∀ (xs : List (Option ℚ)) (v : ℚ), some v ∈ xs →
    ∃ i, DScan.firstIdxOf xs v = some i
  | [], v, h => absurd h (List.not_mem_nil _)
  | x :: xs, v, h => by
      by_cases hx : x = some v
      · exact ⟨0, by simp [DScan.firstIdxOf, hx]⟩
      · rcases List.mem_cons.mp h with h1 | h1
        · exact absurd h1.symm hx
        · rcases firstIdxOf_found xs v h1 with ⟨i, hi⟩
          exact ⟨i + 1, by simp [DScan.firstIdxOf, hx, hi]⟩

lemma firstIdxOf_spec : ∀ (xs : List (Option ℚ)) (v : ℚ) (i : ℕ),
    DScan.firstIdxOf xs v = some i →
    xs.get? i = some (some v) ∧ ∀ j, j < i → xs.get? j ≠ some (some v)
  | [], v, i, h => by simp [DScan.firstIdxOf] at h
  | x :: xs, v, i, h => by
      by_cases hx : x = some v
      · have hi : i = 0 := by
          simp [DScan.firstIdxOf, hx] at h
          omega
        subst hi
        exact ⟨by simp [hx], fun j hj => absurd hj (Nat.not_lt_zero j)⟩
      · have h' : (DScan.firstIdxOf xs v).map (fun i => i + 1) = some i := by
          simpa [DScan.firstIdxOf, hx] using h
        rcases Option.map_eq_some'.mp h' with ⟨i', hi', rfl⟩
        rcases firstIdxOf_spec xs v i' hi' with ⟨hget, hlt⟩
        refine ⟨hget, ?_⟩
        intro j hj
        cases j with
        | zero =>
            intro hc
            exact hx (Option.some.inj hc)
        | succ j' => exact hlt j' (Nat.succ_lt_succ_iff.mp hj)

lemma nanargmin_spec (xs : List (Option ℚ)) (i : ℕ) (h : DScan.nanargmin xs = some i) :
    ∃ v, xs.get? i = some (some v) ∧
      (∀ (j : ℕ) (w : ℚ), xs.get? j = some (some w) → v ≤ w) ∧
      (∀ (j : ℕ), j < i → ∀ (w : ℚ), xs.get? j = some (some w) → v < w) := by
  unfold DScan.nanargmin at h
  cases hm : DScan.nanMin xs with
  | none =>
      rw [hm] at h
      simp at h
  | some v =>
      rw [hm] at h
      rcases firstIdxOf_spec xs v i h with ⟨hget, hne⟩
      refine ⟨v, hget, fun j w hj => nanMin_le xs v hm j w hj, ?_⟩
      intro j hj w hw
      rcases lt_or_eq_of_le (nanMin_le xs v hm j w hw) with hlt | heq
      · exact hlt
      · refine absurd ?_ (hne j hj)
        rw [← heq] at hw
        exact hw

lemma nanargmin_exists (xs : List (Option ℚ)) (j : ℕ) (w : ℚ)
    (h : xs.get? j = some (some w)) : ∃ i, DScan.nanargmin xs = some i := by
  cases hm : DScan.nanMin xs with
  | none => exact absurd h (nanMin_none xs hm j w)
  | some v =>
      rcases firstIdxOf_found xs v (nanMin_mem xs v hm) with ⟨i, hi⟩
      refine ⟨i, ?_⟩
      unfold DScan.nanargmin
      rw [hm]
      exact hi

lemma fwhm_list_get? (fwhmOf : ℕ → Option ℚ) (n j : ℕ) (hj : j < n) :
    (DScan.fwhm_list fwhmOf n).get? j = some (fwhmOf j) := by
  unfold DScan.fwhm_list
  rw [List.get?_map, List.get?_range hj]
  rfl

lemma get?_eq_getD_rat (ps : List ℚ) (j : ℕ) (hj : j < ps.length) :
    ps.get? j = some (ps.getD j 0) := by
  rw [List.getD_eq_get?]
  cases h : ps.get? j with
  | none => exact absurd hj (Nat.not_lt.mpr (List.get?_eq_none.mp h))
  | some a => rfl

/-- C1: in the compression search, the FWHM is computed at every
scan-parameter index, a failed computation is recorded as NaN (`none`)
and excluded from the minimum search rather than aborting it; without a
plot position the selected index is a defined-FWHM index whose value is
minimal over all defined slices and which is the lowest such index
(every earlier defined slice is strictly larger); at least one defined
slice guarantees the selection succeeds; and with an explicit plot
position the selected index is one whose scan position is nearest
plot_position·1e-3 (in particular nearest among all indices). -/
theorem C1_compression_selection :
    (∀ (fwhmOf : ℕ → Option ℚ) (n : ℕ) (ps : List ℚ) (i : ℕ),
        DScan.select_plot_index fwhmOf n ps none = some i →
        i < n ∧ ∃ v, fwhmOf i = some v ∧
          (∀ j, j < n → ∀ w, fwhmOf j = some w → v ≤ w) ∧
          (∀ j, j < i → ∀ w, fwhmOf j = some w → v < w)) ∧
    (∀ (fwhmOf : ℕ → Option ℚ) (n : ℕ) (ps : List ℚ) (j : ℕ),
        j < n → fwhmOf j ≠ none →
        ∃ i, DScan.select_plot_index fwhmOf n ps none = some i) ∧
    (∀ (fwhmOf : ℕ → Option ℚ) (n : ℕ) (ps : List ℚ) (pp : ℚ) (i : ℕ),
        DScan.select_plot_index fwhmOf n ps (some pp) = some i →
        i < ps.length ∧
          ∀ j, j < ps.length →
            |ps.getD i 0 - pp * (1 / 1000)| ≤ |ps.getD j 0 - pp * (1 / 1000)|) := by
  refine ⟨?_, ?_, ?_⟩
  · intro fwhmOf n ps i h
    have h' : DScan.nanargmin (DScan.fwhm_list fwhmOf n) = some i := h
    rcases nanargmin_spec _ i h' with ⟨v, hget, hmin, hstrict⟩
    have hin : i < n := by
      by_contra hge
      have : (DScan.fwhm_list fwhmOf n).get? i = none := by
        apply List.get?_eq_none.mpr
        simpa [DScan.fwhm_list] using Nat.not_lt.mp hge
      rw [this] at hget
      exact Option.noConfusion hget
    have hvi : fwhmOf i = some v := by
      have := fwhm_list_get? fwhmOf n i hin
      rw [this] at hget
      exact Option.some.inj hget
    refine ⟨hin, v, hvi, ?_, ?_⟩
    · intro j hj w hw
      exact hmin j w (by rw [fwhm_list_get? fwhmOf n j hj, hw])
    · intro j hj w hw
      exact hstrict j hj w (by rw [fwhm_list_get? fwhmOf n j (lt_trans hj hin), hw])
  · intro fwhmOf n ps j hj hne
    cases hf : fwhmOf j with
    | none => exact absurd hf hne
    | some w =>
        exact nanargmin_exists (DScan.fwhm_list fwhmOf n) j w
          (by rw [fwhm_list_get? fwhmOf n j hj, hf])
  · intro fwhmOf n ps pp i h
    have h' : DScan.nanargmin (ps.map (fun x => some |x - pp * (1 / 1000)|)) = some i := h
    rcases nanargmin_spec _ i h' with ⟨v, hget, hmin, _⟩
    have hilen : i < ps.length := by
      by_contra hge
      have : (ps.map (fun x => some |x - pp * (1 / 1000)|)).get? i = none := by
        apply List.get?_eq_none.mpr
        simpa using Nat.not_lt.mp hge
      rw [this] at hget
      exact Option.noConfusion hget
    have hvi : v = |ps.getD i 0 - pp * (1 / 1000)| := by
      have h1 : (ps.map (fun x => some |x - pp * (1 / 1000)|)).get? i
          = some (some |ps.getD i 0 - pp * (1 / 1000)|) := by
        rw [List.get?_map, get?_eq_getD_rat ps i hilen]
        rfl
      rw [h1] at hget
      exact (Option.some.inj (Option.some.inj hget)).symm
    refine ⟨hilen, fun j hjlen => ?_⟩
    rw [← hvi]
    apply hmin j
    rw [List.get?_map, get?_eq_getD_rat ps j hjlen]
    rfl

/-- Witness for C1 at concrete inputs.  With
fwhmOf = (fun j => if j = 1 then some 5 else none) and n = 3 the FWHM
array is [NaN, 5, NaN]: the selection returns index 1 with value 5,
minimal and first; and with positions [1, 7/1000] and plot position 7 mm
the nearest index is 1. -/
theorem C1_witness :
    (1 < 3 ∧ ∃ v, (fun j => if j = 1 then some (5 : ℚ) else none) 1 = some v ∧
      (∀ j, j < 3 → ∀ w, (fun j => if j = 1 then some (5 : ℚ) else none) j = some w → v ≤ w) ∧
      (∀ j, j < 1 → ∀ w, (fun j => if j = 1 then some (5 : ℚ) else none) j = some w → v < w)) ∧
    (∃ i, DScan.select_plot_index (fun j => if j = 1 then some (5 : ℚ) else none) 3 [] none
        = some i) ∧
    (1 < ([1, 7 / 1000] : List ℚ).length ∧
      ∀ j, j < ([1, 7 / 1000] : List ℚ).length →
        |([1, 7 / 1000] : List ℚ).getD 1 0 - 7 * (1 / 1000)|
          ≤ |([1, 7 / 1000] : List ℚ).getD j 0 - 7 * (1 / 1000)|) := by
  have hlist1 : DScan.fwhm_list (fun j => if j = 1 then some (5 : ℚ) else none) 3
      = [none, some 5, none] := by
    simp [DScan.fwhm_list, List.range_succ]
  have hsel1 : DScan.select_plot_index (fun j => if j = 1 then some (5 : ℚ) else none) 3 [] none
      = some 1 := by
    show DScan.nanargmin (DScan.fwhm_list (fun j => if j = 1 then some (5 : ℚ) else none) 3)
        = some 1
    rw [hlist1]
    simp [DScan.nanargmin, DScan.nanMin, DScan.firstIdxOf]
  have habs1 : |(1 : ℚ) - 7 * (1 / 1000)| = 993 / 1000 := by
    rw [abs_of_nonneg] <;> norm_num
  have habs2 : |(7 / 1000 : ℚ) - 7 * (1 / 1000)| = 0 := by
    norm_num
  have hmap : ([1, 7 / 1000] : List ℚ).map (fun x => some |x - 7 * (1 / 1000)|)
      = [some (993 / 1000), some 0] := by
    simp only [List.map_cons, List.map_nil, habs1, habs2]
  have hsel3 : DScan.select_plot_index (fun j => if j = 1 then some (5 : ℚ) else none) 2
      [1, 7 / 1000] (some 7) = some 1 := by
    show DScan.nanargmin (([1, 7 / 1000] : List ℚ).map (fun x => some |x - 7 * (1 / 1000)|))
        = some 1
    rw [hmap]
    have hmin32 : min (993 / 1000 : ℚ) 0 = 0 := min_eq_right (by norm_num)
    simp [DScan.nanargmin, DScan.nanMin, DScan.firstIdxOf, hmin32]
  refine ⟨C1_compression_selection.1 _ 3 [] 1 hsel1, ?_, ?_⟩
  · exact C1_compression_selection.2.1 _ 3 [] 1 (by norm_num) (by simp)
  · exact C1_compression_selection.2.2 _ 2 [1, 7 / 1000] 7 1 hsel3

/-- Witness for C5 at the concrete profile [9, 1, 1, 1, 1]: the rolled
profile keeps the length and holds the peak value at index
(5/2 + 1) % 5 = 3. -/
theorem C5_witness :
    (DScan.roll_to_center [9, 1, 1, 1, 1]).length = ([9, 1, 1, 1, 1] : List ℚ).length ∧
    (DScan.roll_to_center [9, 1, 1, 1, 1]).get?
        ((([9, 1, 1, 1, 1] : List ℚ).length / 2 + 1) % ([9, 1, 1, 1, 1] : List ℚ).length)
      = ([9, 1, 1, 1, 1] : List ℚ).get? (DScan.np_argmax [9, 1, 1, 1, 1]) :=
  C5_amended_roll_alignment [9, 1, 1, 1, 1] (by simp)

/-- Witness for C6 at a concrete input: the grating material has
coefficient 4 ≥ 0 at angle 0, and the converted axis for positions
[1, 2] has minimum zero. -/
theorem C6_witness :
    DScan.np_min_real (DScan.convert_axis DScan.Material.gratinga 0 [1, 2]) = 0 :=
  (C6_amended_axis_conversion DScan.Material.gratinga 0 [1, 2]
    (by simp)
    (by rw [show DScan.Material.get_coefficient DScan.Material.gratinga 0 = 4 from rfl]
        norm_num)).2

/-- C4: for every scan trace whose intensity samples are all zero, the
retrieval pipeline (modelled from the spec, the check living in
repository code outside src/) raises DataError before any optimizer
iteration is attempted and never returns a RetrievalResult. -/
theorem C4_all_zero_trace_fails_fast :
    ∀ (trace : List (List ℚ)) (max_iter : ℕ) (step : ℚ → ℚ) (err0 : ℚ),
      (∀ row ∈ trace, ∀ x ∈ row, x = 0) →
      DScan.retrieve trace max_iter step err0
          = Except.error DScan.PipelineError.dataError ∧
      ∀ hist, DScan.retrieve trace max_iter step err0 ≠ Except.ok hist := by
  intro trace n step e h
  have hz : DScan.trace_all_zero trace = true := by
    unfold DScan.trace_all_zero
    rw [List.all_eq_true]
    intro row hrow
    rw [List.all_eq_true]
    intro x hx
    exact decide_eq_true (h row hrow x hx)
  constructor
  · unfold DScan.retrieve
    rw [hz]
    rfl
  · intro hist hc
    unfold DScan.retrieve at hc
    rw [hz] at hc
    exact Except.noConfusion hc

/-- Witness for C4 at the concrete all-zero trace [[0]]: retrieval
returns DataError. -/
theorem C4_witness :
    (∀ row ∈ ([[(0 : ℚ)]] : List (List ℚ)), ∀ x ∈ row, x = 0) ∧
    DScan.retrieve [[(0 : ℚ)]] 30 (fun e => e / 2) 1
      = Except.error DScan.PipelineError.dataError := by
  have h : ∀ row ∈ ([[(0 : ℚ)]] : List (List ℚ)), ∀ x ∈ row, x = 0 := by
    intro row hrow x hx
    have hr : row = [(0 : ℚ)] := List.mem_singleton.mp hrow
    rw [hr] at hx
    exact List.mem_singleton.mp hx
  exact ⟨h, (C4_all_zero_trace_fails_fast [[(0 : ℚ)]] 30 (fun e => e / 2) 1 h).1⟩

/-- C8: grid construction (SpectralGrid, modelled from spec section 4.1
because the validating constructor is the external pypret
FourierTransform) is rejected, before any grid values are produced,
exactly when the point count N is below 2 or the requested bandwidth is
not strictly positive; otherwise it succeeds with
dw = round(Δω/(N−1)) and w0 = −Δω/2. -/
theorem C8_grid_validation :
    ∀ (n : ℕ) (bw : ℚ),
      ((∃ e, DScan.spectral_grid n bw = Except.error e) ↔ (n < 2 ∨ bw ≤ 0)) ∧
      ((2 ≤ n ∧ 0 < bw) →
        DScan.spectral_grid n bw
          = Except.ok (DScan.round_rat_half_even (bw / ((n : ℚ) - 1)), -bw / 2)) := by
  intro n bw
  constructor
  · constructor
    · rintro ⟨e, he⟩
      by_contra hno
      unfold DScan.spectral_grid at he
      rw [if_neg hno] at he
      exact Except.noConfusion he
    · intro hcond
      refine ⟨DScan.PipelineError.configurationError, ?_⟩
      unfold DScan.spectral_grid
      rw [if_pos hcond]
  · rintro ⟨h2, hb⟩
    unfold DScan.spectral_grid
    rw [if_neg ?_]
    push_neg
    exact ⟨h2, hb⟩

/-- Witness for C8 at concrete parameters N = 3000, Δω = 5: construction
succeeds with the spec's dw and w0. -/
theorem C8_witness :
    ((2 : ℕ) ≤ 3000 ∧ (0 : ℚ) < 5) ∧
    DScan.spectral_grid 3000 5
      = Except.ok (DScan.round_rat_half_even ((5 : ℚ) / ((3000 : ℚ) - 1)), -(5 : ℚ) / 2) :=
  ⟨⟨by norm_num, by norm_num⟩,
    (C8_grid_validation 3000 5).2 ⟨by norm_num, by norm_num⟩⟩
